import Mathlib

/-!
Verification of lit_annotator (src/lit_annotator/__main__.py) against its
natural-language specification.

Text is modelled as List Char. The regular-expression operations of the
source (REF_PATTERN, DEF_PATTERN, re.sub, re.split) are modelled as explicit
scanning functions over character lists; scanning advances one character at a
time exactly as the Python regex engine does for these patterns (whose matches
cannot start inside another match). The whitespace class is modelled over the
ASCII range of Python's str whitespace, and \d over ASCII decimal digits.
Functions that in Python resume scanning after a multi-character match are
written with an explicit fuel argument initialised to the text length, so that
every definition is structurally recursive and kernel-evaluable.
-/

set_option maxRecDepth 4000

/-- Python whitespace (ASCII range), as matched by str.split, str.strip and \s. -/
def isPySpace (c : Char) : Bool :=
  c == ' ' || c == '\t' || c == '\n' || c == '\r' || c == '\x0b' || c == '\x0c'

/-- Maximal leading run of decimal digits together with the remainder:
the greedy \d+ of REF_PATTERN / DEF_PATTERN (line 18-19 of the source). -/
def takeDigits : List Char → List Char × List Char
  | [] => ([], [])
  | c :: cs =>
    if c.isDigit then (c :: (takeDigits cs).1, (takeDigits cs).2)
    else ([], c :: cs)

/-- A match of the bracketed marker core at the head of the text:
a literal opening bracket, a caret, one or more digits (greedy), and a closing
bracket.  Returns the captured digit group and the remainder after the closing
bracket.  This is the shared core of REF_PATTERN and DEF_PATTERN. -/
def markerAt : List Char → Option (List Char × List Char)
  | a :: b :: rest =>
    if a = '[' ∧ b = '^' ∧ (takeDigits rest).1 ≠ [] then
      match (takeDigits rest).2 with
      | c :: r => if c = ']' then some ((takeDigits rest).1, r) else none
      | [] => none
    else none
  | _ => none

/-- REF_PATTERN match at the head: marker not followed by a colon. -/
def refAt (l : List Char) : Option (List Char) :=
  match markerAt l with
  | some (d, r) => if r.head? = some ':' then none else some d
  | none => none

/-- DEF_PATTERN match at the head: marker followed by a colon. -/
def defAt (l : List Char) : Option (List Char) :=
  match markerAt l with
  | some (d, r) => if r.head? = some ':' then some d else none
  | none => none

/-- REF_PATTERN.findall: every captured digit group of a reference marker,
in text order (source line 169). -/
def findRefs : List Char → List (List Char)
  | [] => []
  | c :: cs =>
    match refAt (c :: cs) with
    | some d => d :: findRefs cs
    | none => findRefs cs

/-- DEF_PATTERN.findall: every captured digit group of a definition marker,
in text order (source line 170). -/
def findDefs : List Char → List (List Char)
  | [] => []
  | c :: cs =>
    match defAt (c :: cs) with
    | some d => d :: findDefs cs
    | none => findDefs cs

/-- Every bracketed digit marker occurrence (reference or definition form),
in text order: the observation used to read off the footnote identifiers of a
document. -/
def findAllIds : List Char → List (List Char)
  | [] => []
  | c :: cs =>
    match markerAt (c :: cs) with
    | some (d, _) => d :: findAllIds cs
    | none => findAllIds cs

/-- Numeric value of a digit string: Python's int(...) on the captured group. -/
def digitsToNat (d : List Char) : Nat :=
  d.foldl (fun n c => 10 * n + (c.toNat - 48)) 0

/-- The decimal digit character for d < 10. -/
def digitChar (d : Nat) : Char := Char.ofNat (48 + d)

/-- Decimal rendering of a natural number, fuelled (fuel n + 1 always suffices). -/
def natDigitsGo : Nat → Nat → List Char → List Char
  | 0, _, acc => acc
  | fuel + 1, n, acc =>
    if n < 10 then digitChar n :: acc
    else natDigitsGo fuel (n / 10) (digitChar (n % 10) :: acc)

/-- Decimal rendering of a natural number: Python's str(counter). -/
def natDigits (n : Nat) : List Char := natDigitsGo (n + 1) n []

/-- Comparison of identifier strings by numeric value: the key=int sort order
of source line 175. -/
def valLe (a b : List Char) : Prop := digitsToNat a ≤ digitsToNat b

instance : DecidableRel valLe :=
  fun a b => inferInstanceAs (Decidable (digitsToNat a ≤ digitsToNat b))

instance : IsTotal (List Char) valLe := ⟨fun a b => Nat.le_total (digitsToNat a) (digitsToNat b)⟩

instance : IsTrans (List Char) valLe := ⟨fun _ _ _ => Nat.le_trans⟩

/-- sorted(set(refs + defs), key=int) of source line 175: the distinct
identifiers of the chunk in ascending numeric order. -/
def sortedIdsOf (text : List Char) : List (List Char) :=
  List.insertionSort valLe ((findRefs text ++ findDefs text).dedup)

/-- The mapping-building loop of source lines 172-178: walk the sorted
distinct identifiers, and give each one not yet in the mapping the next
counter value; returns the mapping (in insertion order) and the final counter. -/
def buildMappingAux :
    List (List Char) → List (List Char × List Char) → Nat →
      List (List Char × List Char) × Nat
  | [], m, c => (m, c)
  | oldId :: rest, m, c =>
    if oldId ∈ m.map Prod.fst then buildMappingAux rest m c
    else buildMappingAux rest (m ++ [(oldId, natDigits c)]) (c + 1)

/-- Per-chunk Footnote Mapping and outgoing counter (source lines 172-178). -/
def footnoteMappingCounter (text : List Char) (start_number : Nat) :
    List (List Char × List Char) × Nat :=
  buildMappingAux (sortedIdsOf text) [] start_number

/-- The per-chunk Footnote Mapping alone. -/
def footnoteMapping (text : List Char) (start_number : Nat) :
    List (List Char × List Char) :=
  (footnoteMappingCounter text start_number).1

/-- The textual form of a reference marker for a given identifier. -/
def refMarker (d : List Char) : List Char := '[' :: '^' :: (d ++ [']'])

/-- The textual form of a definition marker for a given identifier. -/
def defMarker (d : List Char) : List Char := '[' :: '^' :: (d ++ [']', ':'])

/-- re.sub with a literal pattern: replace every non-overlapping occurrence,
scanning left to right and resuming after each replacement (fuelled; fuel is
initialised to the text length and decreases by one per consumed position). -/
def replaceAllGo (pat rep : List Char) : Nat → List Char → List Char
  | _, [] => []
  | 0, l => l
  | fuel + 1, c :: cs =>
    if pat.isPrefixOf (c :: cs) then
      rep ++ replaceAllGo pat rep fuel (List.drop pat.length (c :: cs))
    else c :: replaceAllGo pat rep fuel cs

/-- re.sub for the reference pattern of one identifier: replace every literal
marker occurrence that is not followed by a colon (the (?!:) lookahead). -/
def replaceRefGo (pat rep : List Char) : Nat → List Char → List Char
  | _, [] => []
  | 0, l => l
  | fuel + 1, c :: cs =>
    if pat.isPrefixOf (c :: cs) ∧ (List.drop pat.length (c :: cs)).head? ≠ some ':' then
      rep ++ replaceRefGo pat rep fuel (List.drop pat.length (c :: cs))
    else c :: replaceRefGo pat rep fuel cs

/-- Source line 181: re.sub of the definition form of oldId by newId. -/
def subDef (oldId newId t : List Char) : List Char :=
  replaceAllGo (defMarker oldId) (defMarker newId) t.length t

/-- Source line 182: re.sub of the reference form of oldId by newId. -/
def subRef (oldId newId t : List Char) : List Char :=
  replaceRefGo (refMarker oldId) (refMarker newId) t.length t

/-- normalize_footnotes (source lines 168-184): build the per-chunk mapping
from the sorted distinct identifiers, then apply, for each mapping pair in
insertion order, the definition-form substitution followed by the
reference-form substitution, each over the whole current text. -/
def normalize_footnotes (text : List Char) (start_number : Nat) : List Char × Nat :=
  ((footnoteMappingCounter text start_number).1.foldl
      (fun t p => subRef p.1 p.2 (subDef p.1 p.2 t)) text,
    (footnoteMappingCounter text start_number).2)

/-- "\n\n".join of Python (source lines 135, 142, 213). -/
def joinSep (sep : List Char) : List (List Char) → List Char
  | [] => []
  | [x] => x
  | x :: y :: rest => x ++ sep ++ joinSep sep (y :: rest)

/-- The blank-line separator. -/
def nl2 : List Char := ['\n', '\n']

/-- Number of whitespace-delimited tokens: len(para.split()) of source line 133. -/
def countWordsAux : List Char → Bool → Nat
  | [], _ => 0
  | c :: cs, inWord =>
    if isPySpace c then countWordsAux cs false
    else (if inWord then 0 else 1) + countWordsAux cs true

/-- Word count of a paragraph. -/
def countWords (l : List Char) : Nat := countWordsAux l false

/-- Sum of the word counts of a chunk's paragraphs: the running
current_length of the chunker. -/
def sumWC (g : List (List Char)) : Nat := (g.map countWords).sum

/-- Python str.strip(): drop leading and trailing whitespace. -/
def stripWS (l : List Char) : List Char :=
  ((l.dropWhile isPySpace).reverse.dropWhile isPySpace).reverse

/-- The suffix after the last newline of a list, if the list has one. -/
def afterLastNL : List Char → Option (List Char)
  | [] => none
  | c :: cs =>
    match afterLastNL cs with
    | some r => some r
    | none => if c = '\n' then some cs else none

/-- A match of the paragraph separator \n\s*\n at the head of the text:
a newline, then greedily as much whitespace as possible such that the last
consumed character is again a newline.  Returns the remainder. -/
def sepMatch : List Char → Option (List Char)
  | '\n' :: rest =>
    match afterLastNL (rest.takeWhile isPySpace) with
    | some r => some (r ++ rest.dropWhile isPySpace)
    | none => none
  | _ => none

/-- re.split of the separator, fuelled scan (source line 127): collect the
current piece until a separator match, then resume after the match. -/
def reSplitGo : Nat → List Char → List Char → List (List Char)
  | _, [], acc => [acc.reverse]
  | 0, l, acc => [acc.reverse ++ l]
  | fuel + 1, c :: cs, acc =>
    match sepMatch (c :: cs) with
    | some r => acc.reverse :: reSplitGo fuel r []
    | none => reSplitGo fuel cs (c :: acc)

/-- The paragraph list of a document:
re.split(blank-line separator, text.strip()) of source line 127. -/
def paragraphsOf (text : List Char) : List (List Char) :=
  reSplitGo (stripWS text).length (stripWS text) []

/-- CHUNK_SIZE (source line 15). -/
def CHUNK_SIZE : Nat := 500

/-- The accumulation loop of split_into_chunks (source lines 132-143), kept at
the level of paragraph groups: before adding a paragraph, if doing so would
push the running word count beyond the budget and the current chunk is
non-empty, flush the current chunk; the trailing non-empty chunk is flushed at
the end. -/
def chunkLoop (B : Nat) : List (List Char) → List (List Char) → Nat → List (List (List Char))
  | [], cur, _ => if cur = [] then [] else [cur]
  | p :: ps, cur, len =>
    if B < len + countWords p ∧ cur ≠ [] then
      cur :: chunkLoop B ps [p] (countWords p)
    else
      chunkLoop B ps (cur ++ [p]) (len + countWords p)

/-- The chunker's paragraph groups for a document. -/
def chunkGroups (text : List Char) (B : Nat) : List (List (List Char)) :=
  chunkLoop B (paragraphsOf text) [] 0

/-- split_into_chunks (source lines 126-144): each group joined with a blank
line. -/
def split_into_chunks (text : List Char) (chunk_size : Nat) : List (List Char) :=
  (chunkGroups text chunk_size).map (joinSep nl2)

/-- The known genre labels of get_genre_guidance (source lines 60-72). -/
def knownGenres : List String :=
  ["literary fiction", "sci-fi", "fantasy", "philosophy", "biography",
   "thriller", "romance", "academic writing", "self-help",
   "children\x27s book", "other"]

/-- The guidance strings of get_genre_guidance. -/
def guidanceValues : List String :=
  ["Focus on subtle emotional tone, literary metaphors, and abstract expressions.",
   "Explain technical or futuristic terms and unfamiliar concepts clearly.",
   "Clarify mythical elements, symbolic terms, or invented vocabulary.",
   "Emphasise logical structure, abstract concepts, and difficult sentence constructions.",
   "Focus on historical references and less common vocabulary.",
   "Clarify idiomatic suspense language or psychological tension.",
   "Highlight emotional tone and cultural idioms.",
   "Explain formal constructions, logical connectors, and field-specific vocabulary.",
   "Clarify abstract motivational language and practical expressions.",
   "Add only minimal annotation — focus on occasionally unfamiliar terms.",
   "Annotate as usual based on clarity and learner needs."]

/-- get_genre_guidance (source lines 59-73): dictionary lookup with the
guidance of the label other as the default for any unrecognised label. -/
def get_genre_guidance (genre : String) : String :=
  if genre = "literary fiction" then
    "Focus on subtle emotional tone, literary metaphors, and abstract expressions."
  else if genre = "sci-fi" then
    "Explain technical or futuristic terms and unfamiliar concepts clearly."
  else if genre = "fantasy" then
    "Clarify mythical elements, symbolic terms, or invented vocabulary."
  else if genre = "philosophy" then
    "Emphasise logical structure, abstract concepts, and difficult sentence constructions."
  else if genre = "biography" then
    "Focus on historical references and less common vocabulary."
  else if genre = "thriller" then
    "Clarify idiomatic suspense language or psychological tension."
  else if genre = "romance" then
    "Highlight emotional tone and cultural idioms."
  else if genre = "academic writing" then
    "Explain formal constructions, logical connectors, and field-specific vocabulary."
  else if genre = "self-help" then
    "Clarify abstract motivational language and practical expressions."
  else if genre = "children\x27s book" then
    "Add only minimal annotation — focus on occasionally unfamiliar terms."
  else
    "Annotate as usual based on clarity and learner needs."

/-- The message of the RuntimeError raised by the retry decorator after
exhausting its attempts (source line 31). -/
def failMessage (n : Nat) : List Char :=
  ("Failed after ".toList ++ natDigits n) ++ " attempts".toList

/-- The attempt loop of the retry decorator (source lines 22-33), with the
external call abstracted as a per-attempt oracle (none models a raised
exception or, via annotate_chunk_with_prompt line 164-165, an empty response).
Returns the first success, if any, within the remaining attempts, together
with the total time slept (one delay after every failed attempt, including
the last one before the final error). -/
def retryGo {A : Type} (f : Nat → Option A) (delay : Nat) : Nat → Nat → Nat → Option A × Nat
  | 0, _, slept => (none, slept)
  | remaining + 1, i, slept =>
    match f i with
    | some a => (some a, slept)
    | none => retryGo f delay remaining (i + 1) (slept + delay)

/-- The retry decorator (source lines 22-33): run the attempts; if none
succeeds, fail with the RuntimeError message, which mentions only the attempt
count.  The second component is the total time slept. -/
def retry {A : Type} (max_attempts delay : Nat) (f : Nat → Option A) :
    Except (List Char) A × Nat :=
  match retryGo f delay max_attempts 0 0 with
  | (some a, slept) => (Except.ok a, slept)
  | (none, slept) => (Except.error (failMessage max_attempts), slept)

/-- The per-chunk loop of process_file (source lines 204-211) on the raw
annotated texts the external service returns: fold normalize_footnotes over
the chunks in order, threading the counter, collecting the normalized texts. -/
def process_chunks : List (List Char) → Nat → List (List Char) × Nat
  | [], counter => ([], counter)
  | t :: ts, counter =>
    ((normalize_footnotes t counter).1
        :: (process_chunks ts (normalize_footnotes t counter).2).1,
      (process_chunks ts (normalize_footnotes t counter).2).2)

/-- The final document of process_file (source line 213): the normalized
chunks joined with a blank line, the counter having started at 1 (line 205). -/
def pipeline_output (raws : List (List Char)) : List Char :=
  joinSep nl2 (process_chunks raws 1).1

/-- process_file's loop with the retrying annotation call made explicit
(source lines 146-166 and 207-211): the oracle gives, per chunk index and
attempt index, the outcome of one external call.  A chunk whose retries are
exhausted aborts the whole run with the retry error. -/
def run_pipeline (oracle : Nat → Nat → Option (List Char)) :
    Nat → List (List Char) → Nat → Except (List Char) (List (List Char) × Nat)
  | _, [], counter => Except.ok ([], counter)
  | i, _chunk :: rest, counter =>
    match retry 3 5 (oracle i) with
    | (Except.error e, _) => Except.error e
    | (Except.ok ann, _) =>
      match run_pipeline oracle (i + 1) rest (normalize_footnotes ann counter).2 with
      | Except.error e => Except.error e
      | Except.ok p => Except.ok ((normalize_footnotes ann counter).1 :: p.1, p.2)

/-! ## Chunker lemmas -/

theorem chunkLoop_flatten (B : Nat) :
    ∀ (ps cur : List (List Char)) (len : Nat),
      (chunkLoop B ps cur len).flatten = cur ++ ps := by
  intro ps
  induction ps with
  | nil =>
    intro cur len
    by_cases h : cur = [] <;> simp [chunkLoop, h]
  | cons p ps ih =>
    intro cur len
    by_cases h : B < len + countWords p ∧ cur ≠ [] <;>
      simp [chunkLoop, h, ih]

theorem chunkLoop_ne_nil (B : Nat) :
    ∀ (ps cur : List (List Char)) (len : Nat) (g : List (List Char)),
      g ∈ chunkLoop B ps cur len → g ≠ [] := by
  intro ps
  induction ps with
  | nil =>
    intro cur len g hg
    by_cases h : cur = []
    · simp [chunkLoop, h] at hg
    · simp [chunkLoop, h] at hg
      subst hg; exact h
  | cons p ps ih =>
    intro cur len g hg
    by_cases h : B < len + countWords p ∧ cur ≠ []
    · simp only [chunkLoop] at hg
      rw [if_pos h] at hg
      rcases List.mem_cons.mp hg with rfl | hg2
      · exact h.2
      · exact ih [p] (countWords p) g hg2
    · simp only [chunkLoop] at hg
      rw [if_neg h] at hg
      exact ih (cur ++ [p]) (len + countWords p) g hg

theorem sumWC_append_one (cur : List (List Char)) (p : List Char) :
    sumWC (cur ++ [p]) = sumWC cur + countWords p := by
  simp [sumWC]

theorem chunkLoop_budget (B : Nat) :
    ∀ (ps cur : List (List Char)) (len : Nat) (g : List (List Char)),
      len = sumWC cur → (sumWC cur ≤ B ∨ ∃ p, cur = [p]) →
      g ∈ chunkLoop B ps cur len →
      sumWC g ≤ B ∨ ∃ p, g = [p] ∧ B < countWords p := by
  intro ps
  induction ps with
  | nil =>
    intro cur len g hlen hcur hg
    by_cases h : cur = []
    · simp [chunkLoop, h] at hg
    · simp [chunkLoop, h] at hg
      subst hg
      rcases hcur with hle | ⟨p, rfl⟩
      · exact Or.inl hle
      · rcases le_or_lt (countWords p) B with hp | hp
        · exact Or.inl (by simpa [sumWC] using hp)
        · exact Or.inr ⟨p, rfl, hp⟩
  | cons p ps ih =>
    intro cur len g hlen hcur hg
    by_cases h : B < len + countWords p ∧ cur ≠ []
    · simp only [chunkLoop] at hg
      rw [if_pos h] at hg
      rcases List.mem_cons.mp hg with rfl | hg2
      · rcases hcur with hle | ⟨q, rfl⟩
        · exact Or.inl hle
        · rcases le_or_lt (countWords q) B with hq | hq
          · exact Or.inl (by simpa [sumWC] using hq)
          · exact Or.inr ⟨q, rfl, hq⟩
      · exact ih [p] (countWords p) g (by simp [sumWC]) (Or.inr ⟨p, rfl⟩) hg2
    · simp only [chunkLoop] at hg
      rw [if_neg h] at hg
      have hs : sumWC (cur ++ [p]) = len + countWords p := by
        rw [sumWC_append_one, hlen]
      by_cases hc : cur = []
      · subst hc
        exact ih ([] ++ [p]) (len + countWords p) g hs.symm
          (Or.inr ⟨p, by simp⟩) hg
      · have hle : len + countWords p ≤ B := by
          rcases le_or_lt (len + countWords p) B with h1 | h1
          · exact h1
          · exact absurd ⟨h1, hc⟩ h
        exact ih (cur ++ [p]) (len + countWords p) g hs.symm
          (Or.inl (by rw [hs]; exact hle)) hg

/-! ## joinSep lemmas -/

theorem joinSep_append (sep : List Char) :
    ∀ (l1 l2 : List (List Char)), l1 ≠ [] → l2 ≠ [] →
      joinSep sep (l1 ++ l2) = joinSep sep l1 ++ sep ++ joinSep sep l2 := by
  intro l1
  induction l1 with
  | nil => intro l2 h1 _; exact absurd rfl h1
  | cons x l1 ih =>
    intro l2 h1 h2
    cases l1 with
    | nil =>
      cases l2 with
      | nil => exact absurd rfl h2
      | cons y ys => simp [joinSep]
    | cons x2 l1' =>
      have h := ih l2 (by simp) h2
      calc joinSep sep ((x :: x2 :: l1') ++ l2)
          = x ++ sep ++ joinSep sep ((x2 :: l1') ++ l2) := by
            simp [joinSep]
        _ = x ++ sep ++ (joinSep sep (x2 :: l1') ++ sep ++ joinSep sep l2) := by
            rw [h]
        _ = joinSep sep (x :: x2 :: l1') ++ sep ++ joinSep sep l2 := by
            simp [joinSep, List.append_assoc]

theorem joinSep_map_flatten (sep : List Char) :
    ∀ (gs : List (List (List Char))), (∀ g ∈ gs, g ≠ []) →
      joinSep sep (gs.map (joinSep sep)) = joinSep sep gs.flatten := by
  intro gs
  induction gs with
  | nil => intro _; rfl
  | cons g gs ih =>
    intro hne
    cases gs with
    | nil => simp [joinSep]
    | cons g2 rest =>
      have hg : g ≠ [] := hne g (by simp)
      have hflat : List.flatten (g2 :: rest) ≠ [] := by
        have hg2 : g2 ≠ [] := hne g2 (by simp)
        simp only [List.flatten_cons, ne_eq, List.append_eq_nil]
        intro hcontra
        exact hg2 hcontra.1
      calc joinSep sep ((g :: g2 :: rest).map (joinSep sep))
          = joinSep sep g ++ sep ++ joinSep sep ((g2 :: rest).map (joinSep sep)) := by
            simp only [List.map_cons, joinSep]
        _ = joinSep sep g ++ sep ++ joinSep sep (List.flatten (g2 :: rest)) := by
            rw [ih (fun x hx => hne x (List.mem_cons_of_mem g hx))]
        _ = joinSep sep (g ++ List.flatten (g2 :: rest)) :=
            (joinSep_append sep g (List.flatten (g2 :: rest)) hg hflat).symm
        _ = joinSep sep (List.flatten (g :: g2 :: rest)) := by
            simp [List.flatten_cons]

/-- C5: for every input document and budget, concatenating the chunks
produced by split_into_chunks in order reproduces exactly the input's
paragraph sequence — no paragraph lost, duplicated, or reordered — and each
paragraph's content is preserved exactly (the chunks are blank-line joins of
the untouched paragraph groups, whose flattening is the paragraph list). -/
theorem split_into_chunks_covers_paragraphs (text : List Char) (B : Nat) :
    (chunkGroups text B).flatten = paragraphsOf text
    ∧ split_into_chunks text B = (chunkGroups text B).map (joinSep nl2)
    ∧ joinSep nl2 (split_into_chunks text B) = joinSep nl2 (paragraphsOf text) := by
  have hflat : (chunkGroups text B).flatten = paragraphsOf text := by
    simpa using chunkLoop_flatten B (paragraphsOf text) [] 0
  refine ⟨hflat, rfl, ?_⟩
  have h1 := joinSep_map_flatten nl2 (chunkGroups text B)
    (fun g hg => chunkLoop_ne_nil B (paragraphsOf text) [] 0 g hg)
  unfold split_into_chunks
  rw [h1, hflat]

/-- C6: every chunk whose word count (sum of whitespace-delimited tokens over
its paragraphs) exceeds the budget consists of exactly one paragraph whose own
word count already exceeds the budget; every other chunk's word count is at
most the budget. -/
theorem chunk_budget_invariant (text : List Char) (B : Nat) (g : List (List Char))
    (hg : g ∈ chunkGroups text B) :
    sumWC g ≤ B ∨ ∃ p, g = [p] ∧ B < countWords p :=
  chunkLoop_budget B (paragraphsOf text) [] 0 g rfl (Or.inl (by simp [sumWC])) hg

theorem chunk_budget_invariant_witness :
    sumWC ["a a a".toList] ≤ 1
    ∨ ∃ p, ["a a a".toList] = [p] ∧ 1 < countWords p :=
  chunk_budget_invariant ("a a a\n\nb".toList) 1 ["a a a".toList] (by decide)

/-- C7 counterexample: on the empty document, split_into_chunks does not
yield zero chunks. -/
theorem empty_document_chunks_not_zero :
    split_into_chunks ("".toList) CHUNK_SIZE ≠ [] := by decide

/-- C7 (amended): on the empty document, split_into_chunks yields exactly one
chunk, consisting of the empty string, so the per-chunk pipeline loop runs
once rather than zero times. -/
theorem empty_document_single_empty_chunk :
    split_into_chunks ("".toList) CHUNK_SIZE = [[]]
    ∧ (split_into_chunks ("".toList) CHUNK_SIZE).length = 1 := ⟨rfl, rfl⟩

/-! ## Footnote mapping lemmas -/

theorem buildMappingAux_eq :
    ∀ (ids : List (List Char)) (m : List (List Char × List Char)) (c : Nat),
      (∀ oldId ∈ ids, oldId ∉ m.map Prod.fst) → ids.Nodup →
      buildMappingAux ids m c =
        (m ++ ids.zip ((List.range ids.length).map (fun i => natDigits (c + i))),
          c + ids.length) := by
  intro ids
  induction ids with
  | nil => intro m c _ _; simp [buildMappingAux]
  | cons oldId rest ih =>
    intro m c hnotin hnd
    have h1 : oldId ∉ m.map Prod.fst := hnotin oldId (by simp)
    have hnd2 := List.nodup_cons.mp hnd
    simp only [buildMappingAux]
    rw [if_neg h1]
    have hrest : ∀ x ∈ rest, x ∉ (m ++ [(oldId, natDigits c)]).map Prod.fst := by
      intro x hx
      have hxm : x ∉ m.map Prod.fst := hnotin x (by simp [hx])
      have hxo : x ≠ oldId := by
        intro hcontra; subst hcontra
        exact hnd2.1 hx
      simp [List.map_append, hxm, hxo]
    rw [ih (m ++ [(oldId, natDigits c)]) (c + 1) hrest hnd2.2]
    have hmap : (List.range (rest.length + 1)).map (fun i => natDigits (c + i))
        = natDigits c :: (List.range rest.length).map (fun i => natDigits (c + 1 + i)) := by
      rw [List.range_succ_eq_map, List.map_cons, List.map_map]
      refine congrArg₂ List.cons (by simp) ?_
      apply List.map_congr_left
      intro i _
      show natDigits (c + (i + 1)) = natDigits (c + 1 + i)
      exact congrArg natDigits (by omega)
    refine Prod.ext ?_ ?_
    · show (m ++ [(oldId, natDigits c)])
          ++ rest.zip ((List.range rest.length).map (fun i => natDigits (c + 1 + i)))
        = m ++ (oldId :: rest).zip
            ((List.range (oldId :: rest).length).map (fun i => natDigits (c + i)))
      rw [List.length_cons, hmap, List.zip_cons_cons, List.append_assoc,
        List.singleton_append]
    · show (c + 1) + rest.length = c + (oldId :: rest).length
      rw [List.length_cons]; omega

/-- Shared helper: a chunk whose scan yields no identifiers is returned
unchanged, with the counter unchanged. -/
theorem normalize_no_ids (text : List Char) (K : Nat) (h : sortedIdsOf text = []) :
    normalize_footnotes text K = (text, K) := by
  unfold normalize_footnotes footnoteMappingCounter
  rw [h]
  simp [buildMappingAux]

/-- C3: for every chunk text and inbound counter K, normalize_footnotes
returns counter K + D where D is the number of distinct identifiers of the
chunk (over both reference and definition occurrences), and the per-chunk
Footnote Mapping pairs the distinct old identifiers, in ascending numeric
order, with the rendered new identifiers K, K+1, ..., K+D-1; a chunk with
zero markers is returned unchanged with the counter unchanged. -/
theorem normalize_footnotes_counter_and_mapping (text : List Char) (K : Nat) :
    (normalize_footnotes text K).2 = K + (sortedIdsOf text).length
    ∧ (sortedIdsOf text).length = ((findRefs text ++ findDefs text).dedup).length
    ∧ footnoteMapping text K =
        (sortedIdsOf text).zip
          ((List.range (sortedIdsOf text).length).map (fun i => natDigits (K + i)))
    ∧ List.Sorted valLe (sortedIdsOf text)
    ∧ (sortedIdsOf text = [] → normalize_footnotes text K = (text, K)) := by
  have hnd : (sortedIdsOf text).Nodup :=
    (List.perm_insertionSort valLe ((findRefs text ++ findDefs text).dedup)).nodup_iff.mpr
      (List.nodup_dedup _)
  have hb := buildMappingAux_eq (sortedIdsOf text) [] K (by simp) hnd
  refine ⟨?_, ?_, ?_, ?_, fun h => normalize_no_ids text K h⟩
  · show (footnoteMappingCounter text K).2 = _
    rw [footnoteMappingCounter, hb]
  · exact (List.perm_insertionSort valLe _).length_eq
  · rw [footnoteMapping, footnoteMappingCounter, hb]
    simp
  · exact List.sorted_insertionSort valLe _

theorem normalize_footnotes_counter_and_mapping_witness :
    normalize_footnotes ("x".toList) 5 = ("x".toList, 5) :=
  (normalize_footnotes_counter_and_mapping ("x".toList) 5).2.2.2.2 (by decide)

/-! ## Marker recognition lemmas -/

theorem takeDigits_isDigit :
    ∀ (l : List Char), ∀ c ∈ (takeDigits l).1, c.isDigit = true := by
  intro l
  induction l with
  | nil => intro c hc; simp [takeDigits] at hc
  | cons a as ih =>
    intro c hc
    by_cases h : a.isDigit
    · simp only [takeDigits] at hc
      rw [if_pos h] at hc
      rcases List.mem_cons.mp hc with rfl | hc2
      · exact h
      · exact ih c hc2
    · simp only [takeDigits] at hc
      rw [if_neg h] at hc
      simp at hc

theorem markerAt_sound (l d r : List Char) (h : markerAt l = some (d, r)) :
    d ≠ [] ∧ ∀ c ∈ d, c.isDigit = true := by
  match l with
  | [] => simp [markerAt] at h
  | [a] => simp [markerAt] at h
  | a :: b :: rest =>
    simp only [markerAt] at h
    by_cases hg : a = '[' ∧ b = '^' ∧ (takeDigits rest).1 ≠ []
    · rw [if_pos hg] at h
      cases hts : (takeDigits rest).2 with
      | nil =>
        rw [hts] at h
        simp at h
      | cons c0 r0 =>
        rw [hts] at h
        change (if c0 = ']' then some ((takeDigits rest).1, r0) else none)
          = some (d, r) at h
        by_cases hc : c0 = ']'
        · rw [if_pos hc] at h
          have h2 := Option.some.inj h
          injection h2 with hd hr
          subst hd
          exact ⟨hg.2.2, fun c hcm => takeDigits_isDigit rest c hcm⟩
        · rw [if_neg hc] at h
          simp at h
    · rw [if_neg hg] at h
      simp at h

theorem refAt_sound (l d : List Char) (h : refAt l = some d) :
    d ≠ [] ∧ ∀ c ∈ d, c.isDigit = true := by
  unfold refAt at h
  cases hm : markerAt l with
  | none => rw [hm] at h; simp at h
  | some pr =>
    obtain ⟨d0, r0⟩ := pr
    rw [hm] at h
    change (if r0.head? = some ':' then none else some d0) = some d at h
    by_cases hc : r0.head? = some ':'
    · rw [if_pos hc] at h
      simp at h
    · rw [if_neg hc] at h
      obtain rfl : d0 = d := Option.some.inj h
      exact markerAt_sound l d0 r0 hm

theorem defAt_sound (l d : List Char) (h : defAt l = some d) :
    d ≠ [] ∧ ∀ c ∈ d, c.isDigit = true := by
  unfold defAt at h
  cases hm : markerAt l with
  | none => rw [hm] at h; simp at h
  | some pr =>
    obtain ⟨d0, r0⟩ := pr
    rw [hm] at h
    change (if r0.head? = some ':' then some d0 else none) = some d at h
    by_cases hc : r0.head? = some ':'
    · rw [if_pos hc] at h
      obtain rfl : d0 = d := Option.some.inj h
      exact markerAt_sound l d0 r0 hm
    · rw [if_neg hc] at h
      simp at h

theorem findRefs_digits :
    ∀ (l : List Char), ∀ d ∈ findRefs l, d ≠ [] ∧ ∀ c ∈ d, c.isDigit = true := by
  intro l
  induction l with
  | nil => intro d hd; simp [findRefs] at hd
  | cons c cs ih =>
    intro d hd
    simp only [findRefs] at hd
    cases hr : refAt (c :: cs) with
    | some d0 =>
      rw [hr] at hd
      change d ∈ d0 :: findRefs cs at hd
      rcases List.mem_cons.mp hd with rfl | hd2
      · exact refAt_sound _ _ hr
      · exact ih d hd2
    | none =>
      rw [hr] at hd
      change d ∈ findRefs cs at hd
      exact ih d hd

theorem findDefs_digits :
    ∀ (l : List Char), ∀ d ∈ findDefs l, d ≠ [] ∧ ∀ c ∈ d, c.isDigit = true := by
  intro l
  induction l with
  | nil => intro d hd; simp [findDefs] at hd
  | cons c cs ih =>
    intro d hd
    simp only [findDefs] at hd
    cases hr : defAt (c :: cs) with
    | some d0 =>
      rw [hr] at hd
      change d ∈ d0 :: findDefs cs at hd
      rcases List.mem_cons.mp hd with rfl | hd2
      · exact defAt_sound _ _ hr
      · exact ih d hd2
    | none =>
      rw [hr] at hd
      change d ∈ findDefs cs at hd
      exact ih d hd

/-- C10: normalize_footnotes recognizes only markers whose bracketed
identifier is a nonempty string of decimal digits; a text with no such marker
is returned unchanged, counter unchanged, whatever bracketed non-digit
markers it contains; and on a mixed text the non-digit markers are left
untouched while the digit markers are rewritten. -/
theorem markers_digit_only_and_nondigit_untouched (text : List Char) (K : Nat) :
    (∀ d ∈ findRefs text ++ findDefs text, d ≠ [] ∧ ∀ c ∈ d, c.isDigit = true)
    ∧ (findRefs text = [] → findDefs text = [] → normalize_footnotes text K = (text, K))
    ∧ normalize_footnotes ("x[^a] y[^1a] z[^2] w[^2]: v".toList) 7
        = ("x[^a] y[^1a] z[^7] w[^7]: v".toList, 8) := by
  refine ⟨?_, ?_, by rfl⟩
  · intro d hd
    rcases List.mem_append.mp hd with hd1 | hd2
    · exact findRefs_digits text d hd1
    · exact findDefs_digits text d hd2
  · intro h1 h2
    apply normalize_no_ids
    rw [sortedIdsOf, h1, h2]
    rfl

theorem markers_digit_only_witness :
    normalize_footnotes ("[^a] [^1a] [^]".toList) 4 = ("[^a] [^1a] [^]".toList, 4) :=
  (markers_digit_only_and_nondigit_untouched ("[^a] [^1a] [^]".toList) 4).2.1
    (by decide) (by decide)

/-- C9: get_genre_guidance is total: every genre label, known or not, yields
one of the fixed guidance strings, and every label outside the known set
(including the empty string) yields the generic default guidance. -/
theorem get_genre_guidance_total_with_default (genre : String) :
    get_genre_guidance genre ∈ guidanceValues
    ∧ (genre ∉ knownGenres →
        get_genre_guidance genre = "Annotate as usual based on clarity and learner needs.") := by
  unfold get_genre_guidance
  split_ifs with h1 h2 h3 h4 h5 h6 h7 h8 h9 h10 <;>
    refine ⟨by decide, fun hn => ?_⟩ <;>
    first
      | rfl
      | (subst_vars; exact absurd (by decide) hn)

theorem get_genre_guidance_total_with_default_witness :
    get_genre_guidance "" = "Annotate as usual based on clarity and learner needs." :=
  (get_genre_guidance_total_with_default "").2 (by decide)

/-! ## Retry and pipeline failure behaviour -/

/-- C8 counterexample: two runs over the same two chunks, one in which the
first chunk exhausts its retries and one in which the second chunk does,
fail with the identical error message, so the fatal error does not identify
which chunk failed. -/
theorem fatal_error_same_for_different_chunks :
    run_pipeline (fun _ _ => none) 0 ["a".toList, "b".toList] 1
      = Except.error ("Failed after 3 attempts".toList)
    ∧ run_pipeline (fun i _ => if i = 0 then some ("c[^1]".toList) else none) 0
        ["a".toList, "b".toList] 1
      = Except.error ("Failed after 3 attempts".toList) := ⟨rfl, rfl⟩

/-- C8 (amended): each annotation call is attempted up to 3 times with a
delay of 5 after every failed attempt; a success within the limit returns the
annotation with no failure, while exhausting all attempts fails with the
error message that reports the attempt count (and only the attempt count). -/
theorem retry_policy_behavior {A : Type} (f : Nat → Option A) :
    ((∀ i, i < 3 → f i = none) →
        retry 3 5 f = (Except.error ("Failed after 3 attempts".toList), 15))
    ∧ (∀ j a, j < 3 → f j = some a → (∀ i, i < j → f i = none) →
        retry 3 5 f = (Except.ok a, 5 * j)) := by
  constructor
  · intro h
    have h0 := h 0 (by omega)
    have h1 := h 1 (by omega)
    have h2 := h 2 (by omega)
    simp [retry, retryGo, h0, h1, h2, failMessage]
    decide
  · intro j a hj hja hprev
    interval_cases j
    · simp [retry, retryGo, hja]
    · have h0 := hprev 0 (by omega)
      simp [retry, retryGo, h0, hja]
    · have h0 := hprev 0 (by omega)
      have h1 := hprev 1 (by omega)
      simp [retry, retryGo, h0, h1, hja]

theorem retry_policy_behavior_witness :
    retry 3 5 (fun i => if i = 2 then some 7 else none) = (Except.ok 7, 10)
    ∧ retry 3 5 (fun _ => (none : Option Nat))
        = (Except.error ("Failed after 3 attempts".toList), 15) := by
  constructor
  · exact (retry_policy_behavior (fun i => if i = 2 then some 7 else none)).2
      2 7 (by omega) rfl (by intro i hi; interval_cases i <;> rfl)
  · exact (retry_policy_behavior (fun _ => (none : Option Nat))).1 (fun i _ => rfl)

/-! ## Normalizer rewrite defects -/

/-- C2 failing input: on chunk text with identifiers 1 and 2 and inbound
counter 2, the Footnote Mapping sends 1 to 2 and 2 to 3, but the sequential
substitution rewrites the occurrences of old identifier 1 a second time
(1 to 2, then the new 2 together with the old 2 to 3), so the output is not
the image of the text under the mapping. -/
theorem rewrite_deviates_from_mapping :
    footnoteMapping ("[^1][^2]".toList) 2
      = [("1".toList, "2".toList), ("2".toList, "3".toList)]
    ∧ normalize_footnotes ("[^1][^2]".toList) 2 = ("[^3][^3]".toList, 4)
    ∧ normalize_footnotes ("[^1][^2]".toList) 2 ≠ ("[^2][^3]".toList, 4) :=
  ⟨rfl, rfl, by decide⟩

/-- C1 failing input: folding normalize_footnotes from counter 1 over the raw
chunk texts "[^1]" and "[^1][^2]" produces the identifiers 1, 3, 3 in
document order: identifier 2 is skipped and identifier 3 is repeated, so the
output identifiers are not an initial segment 1..N assigned strictly
increasing at first occurrence. -/
theorem pipeline_numbering_gap :
    pipeline_output ["[^1]".toList, "[^1][^2]".toList] = "[^1]\n\n[^3][^3]".toList
    ∧ (findAllIds (pipeline_output ["[^1]".toList, "[^1][^2]".toList])).map digitsToNat
        = [1, 3, 3]
    ∧ 2 ∉ (findAllIds (pipeline_output ["[^1]".toList, "[^1][^2]".toList])).map digitsToNat
    ∧ 3 ∈ (findAllIds (pipeline_output ["[^1]".toList, "[^1][^2]".toList])).map digitsToNat :=
  ⟨rfl, rfl, by decide, by decide⟩

/-- C4 failing input: at starting counter 1, normalizing the text with
identifiers 0 and 1 yields the text with both occurrences merged to
identifier 2 (counter 3); re-normalizing that output at the same starting
counter yields identifier 1 (counter 2), so the second run does not reproduce
the first run's output. -/
theorem renormalize_not_idempotent :
    normalize_footnotes ("[^0][^1]".toList) 1 = ("[^2][^2]".toList, 3)
    ∧ normalize_footnotes ("[^2][^2]".toList) 1 = ("[^1][^1]".toList, 2)
    ∧ normalize_footnotes ((normalize_footnotes ("[^0][^1]".toList) 1).1) 1
        ≠ normalize_footnotes ("[^0][^1]".toList) 1 :=
  ⟨rfl, rfl, by decide⟩
